import Mathlib

/-!
Shallow embedding of `src/src/App.jsx` from the customer-transactions-app
repository: the data model (customers, transactions, chart series), the two
filter handlers (`handleFilterCustomerID`, `handleFilterAmount`), the initial
data load (`getData`), the chart derivation (`chartData`, in its two modes),
and the table-row customer-name lookup.  Amounts are modelled as `Int`
(the repository only ever adds and compares them), customer ids as `Nat`
(JavaScript object keys that are array indices enumerate in ascending
numeric order, which only applies to non-negative integer keys), and dates
as opaque `String`s, exactly as the source treats them.
-/

namespace CustomerApp

/-- A customer record, as fetched: `{ id, name }`. -/
structure Customer where
  id : Nat
  name : String
deriving DecidableEq, Repr

/-- A transaction record, as fetched: `{ id, customer_id, date, amount }`. -/
structure Transaction where
  id : Nat
  customer_id : Nat
  date : String
  amount : Int
deriving DecidableEq, Repr

/-- The `(labels, datasets[0].data)` pair produced by `chartData`. -/
structure ChartSeries where
  labels : List String
  points : List Int
deriving DecidableEq, Repr

/-- One accumulator entry of the `transactions.reduce` in `chartData`:
`{ customer_id, amount }`. -/
structure Agg where
  customer_id : Nat
  amount : Int
deriving DecidableEq, Repr

/-- The component state held by the `useState` hooks of `App`.  `filterAmount`
stores the amount input after `parseInt`: `none` models the empty string,
whose `parseInt` is `NaN`. -/
structure AppState where
  customers : List Customer
  transactions : List Transaction
  filteredTransactions : List Transaction
  selectedCustomer : Option Customer
  filterAmount : Option Int
deriving DecidableEq, Repr

/-- The initial state: all five `useState` initialisers. -/
def initState : AppState :=
  { customers := [], transactions := [], filteredTransactions := [],
    selectedCustomer := none, filterAmount := none }

/-- The payload of a successful `fetchData()`. -/
structure FetchResult where
  customers : List Customer
  transactions : List Transaction
deriving DecidableEq, Repr

/-- `getData` in the load `useEffect`: on a truthy result the three record
states are set; a falsy (`null`/failed) result leaves the state untouched. -/
def loadData (s : AppState) (data : Option FetchResult) : AppState :=
  match data with
  | none => s
  | some d =>
      { s with customers := d.customers, transactions := d.transactions,
               filteredTransactions := d.transactions }

/-- `handleFilterCustomerID`: the empty selection value (modelled `none`)
resets `selectedCustomer` to `null` and restores the full transaction list;
a numeric id filters the full `transactions` snapshot by `customer_id` and
looks the selected customer up with `customers.find`. -/
def handleFilterCustomerID (s : AppState) (customerId : Option Nat) : AppState :=
  match customerId with
  | none =>
      { s with selectedCustomer := none, filteredTransactions := s.transactions }
  | some cid =>
      { s with
        filteredTransactions := s.transactions.filter (fun t => t.customer_id == cid),
        selectedCustomer := s.customers.find? (fun c => c.id == cid) }

/-- `handleFilterAmount`: filters the full `transactions` snapshot by
`transaction.amount >= parseInt(amount)`.  When the input is the empty
string, `parseInt` yields `NaN` and `x >= NaN` is false for every `x`, so
the filtered list is empty; `none` models that case. -/
def handleFilterAmount (s : AppState) (amount : Option Int) : AppState :=
  { s with
    filteredTransactions :=
      match amount with
      | none => []
      | some m => s.transactions.filter (fun t => m ≤ t.amount),
    filterAmount := amount }

/-- The Filter Engine operation named by the spec, read off from the two
branches the code actually takes for a set and an unset threshold. -/
def filterByAmount (ts : List Transaction) (m : Option Int) : List Transaction :=
  match m with
  | none => []
  | some v => ts.filter (fun t => v ≤ t.amount)

/-- The `reduce` sum `(sum, transaction) => sum + transaction.amount` with
initial value `0`. -/
def sumAmt (ts : List Transaction) : Int :=
  ts.foldl (fun sum t => sum + t.amount) 0

/-- Insertion step of JavaScript `Set` construction: append the element
unless it is already present (insertion order = first-occurrence order). -/
def insertUniq {α : Type} [DecidableEq α] (acc : List α) (x : α) : List α :=
  if x ∈ acc then acc else acc ++ [x]

/-- `[...new Set(l)]`: the distinct elements of `l` in first-occurrence
order. -/
def firstDedup {α : Type} [DecidableEq α] (l : List α) : List α :=
  l.foldl insertUniq []

/-- Insert into an ascending list, used to model the ascending numeric
enumeration order of JavaScript integer-like object keys. -/
def insertSorted (x : Nat) : List Nat → List Nat
  | [] => [x]
  | y :: ys => if x ≤ y then x :: y :: ys else y :: insertSorted x ys

/-- Sort ascending (insertion sort). -/
def sortIds (l : List Nat) : List Nat :=
  l.foldr insertSorted []

/-- `Object.keys(customerNames)`: the distinct customer ids, enumerated in
ascending numeric order (the JavaScript ordering for integer-like keys). -/
def objectKeys (cs : List Customer) : List Nat :=
  sortIds (firstDedup (cs.map (fun c => c.id)))

/-- `customerNames[id]` for the object built by
`acc[customer.id] = customer.name`: the name of the last customer carrying
that id (later assignments overwrite earlier ones). -/
def nameOfD (cs : List Customer) (id : Nat) : String :=
  match cs.reverse.find? (fun c => c.id == id) with
  | some c => c.name
  | none => ""

/-- Mutating step `existingCustomer.amount += transaction.amount` applied to
the first accumulator entry with the given `customer_id`. -/
def bump : List Agg → Nat → Int → List Agg
  | [], _, _ => []
  | a :: rest, cid, amt =>
      if a.customer_id == cid then
        { a with amount := a.amount + amt } :: rest
      else
        a :: bump rest cid amt

/-- One step of the `transactions.reduce` in the all-customers branch of
`chartData`: add to the existing entry found by `acc.find`, or push a fresh
`{ customer_id, amount }` entry. -/
def addTransaction (acc : List Agg) (t : Transaction) : List Agg :=
  if (acc.find? (fun a => a.customer_id == t.customer_id)).isSome then
    bump acc t.customer_id t.amount
  else
    acc ++ [⟨t.customer_id, t.amount⟩]

/-- The all-customers branch of `chartData`: `labels` are the names of the
full customer list (via the `customerNames` object, hence distinct ids in
ascending order), `data` are the per-customer grouped sums of the
`transactions.reduce`, in first-occurrence order of `customer_id` among the
transactions. -/
def aggregateByCustomer (ts : List Transaction) (cs : List Customer) : ChartSeries :=
  let allCustomerTransactions := ts.foldl addTransaction []
  { labels := (objectKeys cs).map (nameOfD cs),
    points := allCustomerTransactions.map (fun a => a.amount) }

/-- The selected-customer branch of `chartData`: filter to the customer,
take the distinct dates in first-occurrence order, and sum the amounts per
date. -/
def aggregateByCustomerDay (ts : List Transaction) (cid : Nat) : ChartSeries :=
  let customerTransactions := ts.filter (fun t => t.customer_id == cid)
  let dates := firstDedup (customerTransactions.map (fun t => t.date))
  { labels := dates,
    points := dates.map (fun d =>
      sumAmt (customerTransactions.filter (fun t => t.date == d))) }

/-- `chartData` itself: dispatch on whether a customer is selected. -/
def chartData (s : AppState) : ChartSeries :=
  match s.selectedCustomer with
  | none => aggregateByCustomer s.transactions s.customers
  | some c => aggregateByCustomerDay s.transactions c.id

/-- The customer-name cell of the table body,
`customers.find(c => c.id === transaction.customer_id)?.name`: `none`
models `undefined` (a blank cell). -/
def rowName (cs : List Customer) (t : Transaction) : Option String :=
  (cs.find? (fun c => c.id == t.customer_id)).map (fun c => c.name)


/-- The spec §8 scenario customers: `[{1,"A"},{2,"B"}]`. -/
def sampleCustomers : List Customer := [⟨1, "A"⟩, ⟨2, "B"⟩]

/-- The spec §8 scenario transactions. -/
def sampleTransactions : List Transaction :=
  [⟨1, 1, "2024-01-01", 10⟩, ⟨2, 1, "2024-01-02", 5⟩, ⟨3, 2, "2024-01-01", 20⟩]

/-- A loaded state for the scenario with customer A selected. -/
def sampleState : AppState :=
  { customers := sampleCustomers, transactions := sampleTransactions,
    filteredTransactions := sampleTransactions,
    selectedCustomer := some ⟨1, "A"⟩, filterAmount := none }

/-- The amount recorded in the reduce accumulator for a given customer id
(0 when the id has no entry): the value `acc.find` would report. -/
def amountOf (l : List Agg) (cid : Nat) : Int :=
  match l.find? (fun a => a.customer_id == cid) with
  | some a => a.amount
  | none => 0

/-- The distinct `customer_id` values among the transactions in
first-occurrence order: the grouping order of the reduce accumulator. -/
def firstIds (ts : List Transaction) : List Nat :=
  firstDedup (ts.map (fun t => t.customer_id))

end CustomerApp

namespace CustomerApp

lemma mem_insertUniq {α : Type} [DecidableEq α] (acc : List α) (x y : α) :
    y ∈ insertUniq acc x ↔ y ∈ acc ∨ y = x := by
  unfold insertUniq
  by_cases h : x ∈ acc
  · simp only [h, if_true]
    constructor
    · exact Or.inl
    · rintro (hy | rfl)
      · exact hy
      · exact h
  · simp [h]

lemma mem_foldl_insertUniq {α : Type} [DecidableEq α] (l : List α) :
    ∀ (acc : List α) (y : α), y ∈ l.foldl insertUniq acc ↔ y ∈ acc ∨ y ∈ l := by
  induction l with
  | nil => simp
  | cons x xs ih =>
      intro acc y
      rw [List.foldl_cons, ih, mem_insertUniq]
      simp [or_assoc]

lemma mem_firstDedup {α : Type} [DecidableEq α] (l : List α) (y : α) :
    y ∈ firstDedup l ↔ y ∈ l := by
  simp [firstDedup, mem_foldl_insertUniq]

lemma nodup_insertUniq {α : Type} [DecidableEq α] (acc : List α) (x : α)
    (h : acc.Nodup) : (insertUniq acc x).Nodup := by
  unfold insertUniq
  by_cases hx : x ∈ acc
  · simpa [hx]
  · simp [hx, List.nodup_append, h, List.disjoint_singleton]

lemma nodup_foldl_insertUniq {α : Type} [DecidableEq α] (l : List α) :
    ∀ acc : List α, acc.Nodup → (l.foldl insertUniq acc).Nodup := by
  induction l with
  | nil => intro acc h; simpa
  | cons x xs ih => intro acc h; exact ih _ (nodup_insertUniq acc x h)

lemma nodup_firstDedup {α : Type} [DecidableEq α] (l : List α) :
    (firstDedup l).Nodup :=
  nodup_foldl_insertUniq l [] (by simp)

lemma foldl_insertUniq_append {α : Type} [DecidableEq α] (l : List α) :
    ∀ acc : List α, ∃ s, l.foldl insertUniq acc = acc ++ s ∧ s.Sublist l := by
  induction l with
  | nil => exact fun acc => ⟨[], by simp, List.nil_sublist []⟩
  | cons x xs ih =>
      intro acc
      by_cases hx : x ∈ acc
      · obtain ⟨s, hs, hsub⟩ := ih acc
        exact ⟨s, by simpa [insertUniq, hx] using hs, hsub.cons x⟩
      · obtain ⟨s, hs, hsub⟩ := ih (acc ++ [x])
        refine ⟨x :: s, ?_, hsub.cons₂ x⟩
        rw [List.foldl_cons]
        simpa [insertUniq, hx] using hs

lemma firstDedup_sublist {α : Type} [DecidableEq α] (l : List α) :
    (firstDedup l).Sublist l := by
  obtain ⟨s, hs, hsub⟩ := foldl_insertUniq_append l []
  simpa [firstDedup, hs]

lemma mem_insertSorted (x : Nat) (l : List Nat) (y : Nat) :
    y ∈ insertSorted x l ↔ y = x ∨ y ∈ l := by
  induction l with
  | nil => simp [insertSorted]
  | cons z zs ih =>
      unfold insertSorted
      by_cases h : x ≤ z
      · simp [h]
      · simp [h, ih]
        tauto

lemma mem_sortIds (l : List Nat) (y : Nat) : y ∈ sortIds l ↔ y ∈ l := by
  induction l with
  | nil => simp [sortIds]
  | cons x xs ih =>
      simp only [sortIds, List.foldr_cons] at ih ⊢
      rw [mem_insertSorted, ih]
      simp

lemma objectKeys_ne_nil (c : Customer) (cs : List Customer) :
    objectKeys (c :: cs) ≠ [] := by
  have hm : c.id ∈ objectKeys (c :: cs) := by
    rw [objectKeys, mem_sortIds, mem_firstDedup]
    simp
  exact List.ne_nil_of_mem hm

end CustomerApp

namespace CustomerApp

lemma foldl_add_amount (ts : List Transaction) (x : Int) :
    ts.foldl (fun sum t => sum + t.amount) x = x + (ts.map (fun t => t.amount)).sum := by
  induction ts generalizing x with
  | nil => simp
  | cons t ts ih => simp [List.foldl_cons, ih, add_assoc]

lemma sumAmt_eq (ts : List Transaction) :
    sumAmt ts = (ts.map (fun t => t.amount)).sum := by
  simpa [sumAmt] using foldl_add_amount ts 0

lemma sumAmt_cons (t : Transaction) (ts : List Transaction) :
    sumAmt (t :: ts) = t.amount + sumAmt ts := by
  simp [sumAmt_eq]

lemma bump_sum (l : List Agg) (cid : Nat) (amt : Int)
    (h : (l.find? (fun a => a.customer_id == cid)).isSome) :
    ((bump l cid amt).map (fun a => a.amount)).sum
      = (l.map (fun a => a.amount)).sum + amt := by
  induction l with
  | nil => simp at h
  | cons a rest ih =>
      by_cases hc : (a.customer_id == cid) = true
      · simp [bump, hc]
        ring
      · simp only [List.find?_cons, hc] at h
        simp [bump, hc, ih h]
        ring

lemma addTransaction_sum (acc : List Agg) (t : Transaction) :
    ((addTransaction acc t).map (fun a => a.amount)).sum
      = (acc.map (fun a => a.amount)).sum + t.amount := by
  unfold addTransaction
  by_cases h : (acc.find? (fun a => a.customer_id == t.customer_id)).isSome
  · simp only [h, if_true]
    exact bump_sum acc t.customer_id t.amount h
  · simp [h]

lemma foldl_addTransaction_sum (ts : List Transaction) :
    ∀ acc : List Agg,
      (((ts.foldl addTransaction acc).map (fun a => a.amount)).sum)
        = (acc.map (fun a => a.amount)).sum + sumAmt ts := by
  induction ts with
  | nil => intro acc; simp [sumAmt]
  | cons t ts ih =>
      intro acc
      rw [List.foldl_cons, ih (addTransaction acc t), addTransaction_sum,
        sumAmt_cons]
      ring

lemma aggregateByCustomer_points_sum (ts : List Transaction) (cs : List Customer) :
    (aggregateByCustomer ts cs).points.sum = sumAmt ts := by
  simpa [aggregateByCustomer] using foldl_addTransaction_sum ts []

end CustomerApp

namespace CustomerApp

lemma bump_map_id (l : List Agg) (cid : Nat) (amt : Int) :
    (bump l cid amt).map (fun a => a.customer_id)
      = l.map (fun a => a.customer_id) := by
  induction l with
  | nil => rfl
  | cons a rest ih =>
      unfold bump
      by_cases hc : (a.customer_id == cid) = true
      · simp [hc]
      · simp [hc, ih]

lemma find?_isSome_iff_mem_map (l : List Agg) (cid : Nat) :
    (l.find? (fun a => a.customer_id == cid)).isSome = true
      ↔ cid ∈ l.map (fun a => a.customer_id) := by
  rw [List.find?_isSome]
  constructor
  · rintro ⟨a, ha, hb⟩
    rw [← eq_of_beq hb]
    exact List.mem_map_of_mem (fun a => a.customer_id) ha
  · intro hm
    obtain ⟨a, ha, hfa⟩ := List.mem_map.mp hm
    exact ⟨a, ha, beq_iff_eq.mpr hfa⟩

lemma addTransaction_map_id (acc : List Agg) (t : Transaction) :
    (addTransaction acc t).map (fun a => a.customer_id)
      = insertUniq (acc.map (fun a => a.customer_id)) t.customer_id := by
  unfold addTransaction insertUniq
  by_cases h : (acc.find? (fun a => a.customer_id == t.customer_id)).isSome = true
  · rw [if_pos h, if_pos ((find?_isSome_iff_mem_map acc t.customer_id).mp h),
      bump_map_id]
  · rw [if_neg h, if_neg (fun hm => h ((find?_isSome_iff_mem_map acc t.customer_id).mpr hm))]
    simp

lemma foldl_addTransaction_map_id (ts : List Transaction) :
    ∀ acc : List Agg,
      (ts.foldl addTransaction acc).map (fun a => a.customer_id)
        = (ts.map (fun t => t.customer_id)).foldl insertUniq
            (acc.map (fun a => a.customer_id)) := by
  induction ts with
  | nil => intro acc; rfl
  | cons t ts ih =>
      intro acc
      rw [List.foldl_cons, ih, List.map_cons, List.foldl_cons,
        addTransaction_map_id]

lemma amountOf_cons (a : Agg) (rest : List Agg) (id : Nat) :
    amountOf (a :: rest) id
      = if (a.customer_id == id) = true then a.amount else amountOf rest id := by
  by_cases h : (a.customer_id == id) = true
  · simp [amountOf, List.find?_cons, h]
  · simp [amountOf, List.find?_cons, h]

lemma amountOf_bump (l : List Agg) (cid : Nat) (amt : Int)
    (h : (l.find? (fun a => a.customer_id == cid)).isSome = true) (id : Nat) :
    amountOf (bump l cid amt) id
      = amountOf l id + (if id = cid then amt else 0) := by
  induction l with
  | nil => simp at h
  | cons a rest ih =>
      by_cases hc : (a.customer_id == cid) = true
      · have hb : bump (a :: rest) cid amt
            = { a with amount := a.amount + amt } :: rest := by
          simp [bump, hc]
        rw [hb, amountOf_cons, amountOf_cons]
        by_cases hid : (a.customer_id == id) = true
        · have hidc : id = cid := by rw [← eq_of_beq hid, eq_of_beq hc]
          simp only [hid, if_true, if_pos hidc]
        · have hne : ¬ id = cid := fun he => by
            rw [he] at hid
            exact hid hc
          simp [hid, hne]
      · have hb : bump (a :: rest) cid amt = a :: bump rest cid amt := by
          simp [bump, hc]
        have hrest : (rest.find? (fun a => a.customer_id == cid)).isSome = true := by
          simpa [List.find?_cons, hc] using h
        rw [hb, amountOf_cons, amountOf_cons]
        by_cases hid : (a.customer_id == id) = true
        · have hne : ¬ id = cid := fun he => by
            have : a.customer_id = cid := (eq_of_beq hid).trans he
            exact hc (beq_iff_eq.mpr this)
          simp only [hid, if_true, if_neg hne, add_zero]
        · simp only [hid, if_false]
          exact ih hrest

lemma amountOf_append_new (l : List Agg) (cid : Nat) (amt : Int)
    (h : l.find? (fun a => a.customer_id == cid) = none) (id : Nat) :
    amountOf (l ++ [⟨cid, amt⟩]) id
      = amountOf l id + (if id = cid then amt else 0) := by
  induction l with
  | nil =>
      by_cases hid : id = cid
      · simp [amountOf, List.find?_cons, hid]
      · have : ¬ (cid == id) = true := fun hb => hid (eq_of_beq hb).symm
        simp [amountOf, List.find?_cons, this, hid]
  | cons a rest ih =>
      rw [List.find?_cons] at h
      by_cases hc : (a.customer_id == cid) = true
      · simp [hc] at h
      · simp only [hc] at h
        rw [List.cons_append, amountOf_cons, amountOf_cons]
        by_cases hid : (a.customer_id == id) = true
        · have hne : ¬ id = cid := fun he => by
            have : a.customer_id = cid := (eq_of_beq hid).trans he
            exact hc (beq_iff_eq.mpr this)
          simp only [hid, if_true, if_neg hne, add_zero]
        · simp only [hid, if_false]
          exact ih h

lemma amountOf_addTransaction (acc : List Agg) (t : Transaction) (id : Nat) :
    amountOf (addTransaction acc t) id
      = amountOf acc id + (if id = t.customer_id then t.amount else 0) := by
  unfold addTransaction
  by_cases h : (acc.find? (fun a => a.customer_id == t.customer_id)).isSome = true
  · rw [if_pos h]
    exact amountOf_bump acc t.customer_id t.amount h id
  · rw [if_neg h]
    exact amountOf_append_new acc t.customer_id t.amount
      (Option.not_isSome_iff_eq_none.mp h) id

lemma amountOf_foldl (ts : List Transaction) :
    ∀ (acc : List Agg) (id : Nat),
      amountOf (ts.foldl addTransaction acc) id
        = amountOf acc id
            + sumAmt (ts.filter (fun t => t.customer_id == id)) := by
  induction ts with
  | nil => intro acc id; simp [sumAmt]
  | cons t ts ih =>
      intro acc id
      rw [List.foldl_cons, ih, amountOf_addTransaction]
      by_cases hc : (t.customer_id == id) = true
      · have hidc : id = t.customer_id := (eq_of_beq hc).symm
        rw [List.filter_cons, if_pos hc, sumAmt_cons, if_pos hidc]
        ring
      · have hne : ¬ id = t.customer_id := fun he => hc (beq_iff_eq.mpr he.symm)
        rw [List.filter_cons, if_neg hc, if_neg hne]
        ring

lemma find?_eq_of_mem_of_nodup (l : List Agg)
    (h : (l.map (fun a => a.customer_id)).Nodup) (e : Agg) (he : e ∈ l) :
    l.find? (fun a => a.customer_id == e.customer_id) = some e := by
  induction l with
  | nil => simp at he
  | cons a rest ih =>
      rw [List.map_cons, List.nodup_cons] at h
      by_cases hc : (a.customer_id == e.customer_id) = true
      · have hae : a = e := by
          rcases List.mem_cons.mp he with rfl | hr
          · rfl
          · have hmem : a.customer_id ∈ rest.map (fun a => a.customer_id) := by
              rw [eq_of_beq hc]
              exact List.mem_map_of_mem (fun a => a.customer_id) hr
            exact absurd hmem h.1
        simp [List.find?_cons, hc, hae]
      · have her : e ∈ rest := by
          rcases List.mem_cons.mp he with rfl | hr
          · exact absurd (beq_self_eq_true e.customer_id) hc
          · exact hr
        simpa [List.find?_cons, hc] using ih h.2 her

lemma mem_foldl_amount_eq (ts : List Transaction) (e : Agg)
    (he : e ∈ ts.foldl addTransaction []) :
    e.amount = sumAmt (ts.filter (fun t => t.customer_id == e.customer_id)) := by
  have hnd : ((ts.foldl addTransaction []).map (fun a => a.customer_id)).Nodup := by
    rw [foldl_addTransaction_map_id]
    exact nodup_foldl_insertUniq _ [] (by simp)
  have hfind := find?_eq_of_mem_of_nodup _ hnd e he
  have hfold := amountOf_foldl ts [] e.customer_id
  simp only [amountOf, hfind] at hfold
  simpa [amountOf] using hfold

end CustomerApp

namespace CustomerApp

lemma sumAmt_filter_partition (l : List Transaction) (p : Transaction → Bool) :
    sumAmt (l.filter p) + sumAmt (l.filter (fun t => ! p t)) = sumAmt l := by
  induction l with
  | nil => simp [sumAmt]
  | cons t ts ih =>
      by_cases hp : p t = true
      · rw [List.filter_cons, if_pos hp, List.filter_cons]
        simp only [hp, Bool.not_true, Bool.false_eq_true, if_false]
        rw [sumAmt_cons, sumAmt_cons]
        omega
      · have hnp : (! p t) = true := by
          cases hpt : p t
          · rfl
          · exact absurd hpt hp
        rw [List.filter_cons, if_neg hp, List.filter_cons, if_pos hnp,
          sumAmt_cons, sumAmt_cons]
        omega

lemma filter_date_of_filter_ne (l : List Transaction) (d d' : String) (h : d' ≠ d) :
    (l.filter (fun t => ! (t.date == d))).filter (fun t => t.date == d')
      = l.filter (fun t => t.date == d') := by
  induction l with
  | nil => rfl
  | cons t ts ih =>
      by_cases hd : (t.date == d) = true
      · have hd' : ¬ (t.date == d') = true := fun hb =>
          h ((eq_of_beq hb).symm.trans (eq_of_beq hd))
        simp only [List.filter_cons, hd, Bool.not_true, Bool.false_eq_true,
          if_false, hd', ih]
      · have hnd : (! (t.date == d)) = true := by
          cases hdt : (t.date == d)
          · rfl
          · exact absurd hdt hd
        by_cases hd' : (t.date == d') = true
        · simp only [List.filter_cons, hnd, if_true, hd', ih]
        · simp only [List.filter_cons, hnd, if_true, hd', Bool.false_eq_true,
            if_false, ih]

lemma sum_over_dates (ds : List String) :
    ∀ l : List Transaction, ds.Nodup → (∀ t ∈ l, t.date ∈ ds) →
      ((ds.map (fun d => sumAmt (l.filter (fun t => t.date == d)))).sum) = sumAmt l := by
  induction ds with
  | nil =>
      intro l _ hcov
      have : l = [] := List.eq_nil_iff_forall_not_mem.mpr fun t ht =>
        absurd (hcov t ht) (List.not_mem_nil t.date)
      subst this
      simp [sumAmt]
  | cons d ds ih =>
      intro l hnd hcov
      have hdn : d ∉ ds := (List.nodup_cons.mp hnd).1
      have hnd' : ds.Nodup := (List.nodup_cons.mp hnd).2
      rw [List.map_cons, List.sum_cons]
      have hmap :
          ds.map (fun d' => sumAmt (l.filter (fun t => t.date == d')))
            = ds.map (fun d' =>
                sumAmt ((l.filter (fun t => ! (t.date == d))).filter
                  (fun t => t.date == d'))) :=
        List.map_congr_left fun d' hd' => by
          rw [filter_date_of_filter_ne l d d' (fun he => hdn (he ▸ hd'))]
      have hcov' : ∀ t ∈ l.filter (fun t => ! (t.date == d)), t.date ∈ ds := by
        intro t ht
        obtain ⟨htl, htb⟩ := List.mem_filter.mp ht
        rcases List.mem_cons.mp (hcov t htl) with he | hm
        · rw [he] at htb
          simp at htb
        · exact hm
      rw [hmap, ih (l.filter (fun t => ! (t.date == d))) hnd' hcov']
      exact sumAmt_filter_partition l (fun t => t.date == d)

end CustomerApp

namespace CustomerApp

/-- Claim C1, counterexample: with customers `A` (id 1) and `B` (id 2) but a
single transaction for customer 1, the all-customers branch of `chartData`
produces two labels but only one point, so the claimed label/point
alignment fails in the zero-transaction-customer case the claim explicitly
includes. -/
theorem aggregateByCustomer_misaligned_counterexample :
    (aggregateByCustomer [⟨1, 1, "2024-01-01", 10⟩]
        [⟨1, "A"⟩, ⟨2, "B"⟩]).labels.length
      ≠ (aggregateByCustomer [⟨1, 1, "2024-01-01", 10⟩]
          [⟨1, "A"⟩, ⟨2, "B"⟩]).points.length := by
  decide

/-- Claim C1, amended: the all-customers aggregation builds `labels` from
the full customer list (distinct ids, ascending) and `points` from the
grouped sums (distinct transaction customer_ids, first-occurrence order),
so the claimed alignment does not hold in general — the counterexample
breaks it with a customer that has zero matching transactions.  It does
hold whenever those two id sequences coincide
(`objectKeys cs = firstIds ts`, a sufficient condition that covers the
spec scenario): then labels and points have the same length and the i-th
point is the summed amount of the customer named by the i-th label. -/
theorem aggregateByCustomer_aligned_of_keys_eq_firstIds
    (cs : List Customer) (ts : List Transaction)
    (h : objectKeys cs = firstIds ts) :
    (aggregateByCustomer ts cs).labels = (firstIds ts).map (nameOfD cs)
    ∧ (aggregateByCustomer ts cs).points
        = (firstIds ts).map (fun id =>
            sumAmt (ts.filter (fun t => t.customer_id == id)))
    ∧ (aggregateByCustomer ts cs).labels.length
        = (aggregateByCustomer ts cs).points.length := by
  have hids : (ts.foldl addTransaction []).map (fun a => a.customer_id)
      = firstIds ts := by
    rw [foldl_addTransaction_map_id]
    rfl
  have hpoints : (aggregateByCustomer ts cs).points
      = (firstIds ts).map (fun id =>
          sumAmt (ts.filter (fun t => t.customer_id == id))) := by
    show (ts.foldl addTransaction []).map (fun a => a.amount) = _
    rw [← hids, List.map_map]
    exact List.map_congr_left fun e he => mem_foldl_amount_eq ts e he
  refine ⟨?_, hpoints, ?_⟩
  · show (objectKeys cs).map (nameOfD cs) = _
    rw [h]
  · rw [hpoints]
    show ((objectKeys cs).map (nameOfD cs)).length = _
    rw [h, List.length_map, List.length_map]

/-- Claim C1, witness: the spec §8 scenario (customers A, B; transactions
summing to 15 and 20) satisfies the alignment hypothesis and hence the
alignment conclusion. -/
theorem aggregateByCustomer_aligned_witness :
    objectKeys sampleCustomers = firstIds sampleTransactions
    ∧ ((aggregateByCustomer sampleTransactions sampleCustomers).labels
          = (firstIds sampleTransactions).map (nameOfD sampleCustomers)
        ∧ (aggregateByCustomer sampleTransactions sampleCustomers).points
            = (firstIds sampleTransactions).map (fun id =>
                sumAmt (sampleTransactions.filter (fun t => t.customer_id == id)))
        ∧ (aggregateByCustomer sampleTransactions sampleCustomers).labels.length
            = (aggregateByCustomer sampleTransactions sampleCustomers).points.length) :=
  ⟨by decide,
    aggregateByCustomer_aligned_of_keys_eq_firstIds sampleCustomers
      sampleTransactions (by decide)⟩

/-- Claim C2, counterexample: with a nonempty snapshot, an unset amount
threshold (empty input, whose `parseInt` is `NaN`) yields an empty filtered
list, not the unchanged transaction list the claim requires. -/
theorem handleFilterAmount_unset_not_identity :
    (handleFilterAmount
        { customers := [⟨1, "A"⟩], transactions := [⟨1, 1, "2024-01-01", 10⟩],
          filteredTransactions := [⟨1, 1, "2024-01-01", 10⟩],
          selectedCustomer := none, filterAmount := none }
        none).filteredTransactions
      ≠ ({ customers := [⟨1, "A"⟩], transactions := [⟨1, 1, "2024-01-01", 10⟩],
           filteredTransactions := [⟨1, 1, "2024-01-01", 10⟩],
           selectedCustomer := none, filterAmount := none } : AppState).transactions := by
  decide

/-- Claim C2, amended: for a numeric threshold `m` the handler keeps exactly
the transactions with `amount ≥ m`, in input order (a sublist of the
snapshot); for a null/unset threshold it produces the empty list (the
`amount >= NaN` comparison is false for every element), not the unchanged
input. -/
theorem handleFilterAmount_spec (s : AppState) (m : Int) :
    ((handleFilterAmount s (some m)).filteredTransactions).Sublist s.transactions
    ∧ (∀ t, t ∈ (handleFilterAmount s (some m)).filteredTransactions
          ↔ t ∈ s.transactions ∧ m ≤ t.amount)
    ∧ (handleFilterAmount s none).filteredTransactions = [] := by
  refine ⟨List.filter_sublist s.transactions, fun t => ?_, rfl⟩
  rw [show (handleFilterAmount s (some m)).filteredTransactions
      = s.transactions.filter (fun t => m ≤ t.amount) from rfl, List.mem_filter]
  simp

/-- Claim C3 (confirmed): selecting a concrete customer id keeps exactly
the transactions with that `customer_id`, in input order; selecting "All"
resets `selectedCustomer` to `null` and restores the full transaction
list. -/
theorem handleFilterCustomerID_spec (s : AppState) (cid : Nat) :
    ((handleFilterCustomerID s (some cid)).filteredTransactions).Sublist s.transactions
    ∧ (∀ t, t ∈ (handleFilterCustomerID s (some cid)).filteredTransactions
          ↔ t ∈ s.transactions ∧ t.customer_id = cid)
    ∧ (handleFilterCustomerID s none).selectedCustomer = none
    ∧ (handleFilterCustomerID s none).filteredTransactions = s.transactions := by
  refine ⟨List.filter_sublist s.transactions, fun t => ?_, rfl, rfl⟩
  rw [show (handleFilterCustomerID s (some cid)).filteredTransactions
      = s.transactions.filter (fun t => t.customer_id == cid) from rfl,
    List.mem_filter]
  simp

/-- Claim C4 (confirmed): the points of the all-customers aggregation sum
to the total amount over the whole input transaction list, for every
customer collection. -/
theorem aggregateByCustomer_conservation (ts : List Transaction) (cs : List Customer) :
    (aggregateByCustomer ts cs).points.sum = (ts.map (fun t => t.amount)).sum := by
  rw [aggregateByCustomer_points_sum, sumAmt_eq]

/-- Claim C5 (confirmed): the selected-customer aggregation labels are the
distinct dates of the transactions of that customer in first-occurrence order
(no duplicates, a subsequence of the date sequence, covering exactly the
occurring dates), the i-th point is the per-date sum for the i-th label,
and the points sum to the total of that customer. -/
theorem aggregateByCustomerDay_spec (ts : List Transaction) (cid : Nat) :
    (aggregateByCustomerDay ts cid).labels
        = firstDedup ((ts.filter (fun t => t.customer_id == cid)).map (fun t => t.date))
    ∧ (aggregateByCustomerDay ts cid).labels.Nodup
    ∧ (∀ d, d ∈ (aggregateByCustomerDay ts cid).labels
          ↔ d ∈ (ts.filter (fun t => t.customer_id == cid)).map (fun t => t.date))
    ∧ ((aggregateByCustomerDay ts cid).labels).Sublist
        ((ts.filter (fun t => t.customer_id == cid)).map (fun t => t.date))
    ∧ (aggregateByCustomerDay ts cid).points
        = (aggregateByCustomerDay ts cid).labels.map (fun d =>
            sumAmt ((ts.filter (fun t => t.customer_id == cid)).filter
              (fun t => t.date == d)))
    ∧ (aggregateByCustomerDay ts cid).points.sum
        = sumAmt (ts.filter (fun t => t.customer_id == cid)) := by
  refine ⟨rfl, nodup_firstDedup _, fun d => mem_firstDedup _ d,
    firstDedup_sublist _, rfl, ?_⟩
  have hnd := nodup_firstDedup
    ((ts.filter (fun t => t.customer_id == cid)).map (fun t => t.date))
  have hcov : ∀ t ∈ ts.filter (fun t => t.customer_id == cid),
      t.date ∈ firstDedup
        ((ts.filter (fun t => t.customer_id == cid)).map (fun t => t.date)) :=
    fun t ht => (mem_firstDedup _ _).mpr (List.mem_map_of_mem _ ht)
  exact sum_over_dates _ _ hnd hcov

/-- Claim C6, counterexample: with one customer and no transactions, the
all-customers branch of `chartData` has a nonempty label list (labels come
from the customer list, not the transactions), contradicting the claimed
empty labels. -/
theorem chartData_empty_transactions_counterexample :
    (chartData { customers := [⟨1, "A"⟩], transactions := [],
                 filteredTransactions := [], selectedCustomer := none,
                 filterAmount := none }).labels ≠ [] := by
  decide

/-- Claim C6, amended: on an empty transaction collection both aggregation
modes have empty points and the selected-customer mode is entirely empty,
but the labels of the all-customers mode are the customer-name list, which is
empty exactly when the customer collection is. -/
theorem chartData_empty_transactions_spec (cs : List Customer) (cid : Nat) :
    (aggregateByCustomer [] cs).points = []
    ∧ aggregateByCustomerDay [] cid = ⟨[], []⟩
    ∧ ((aggregateByCustomer [] cs).labels = [] ↔ cs = []) := by
  refine ⟨rfl, rfl, ?_, ?_⟩
  · intro hl
    cases cs with
    | nil => rfl
    | cons c rest =>
        exfalso
        have hmap : (objectKeys (c :: rest)).map (nameOfD (c :: rest)) = [] := hl
        rw [List.map_eq_nil_iff] at hmap
        exact objectKeys_ne_nil c rest hmap
  · rintro rfl
    rfl

/-- Claim C7 (confirmed): whenever a customer is selected, setting the
amount threshold recomputes the filtered list from the full transaction
snapshot with only the amount predicate — the active customer selection is
ignored, not composed. -/
theorem handleFilterAmount_ignores_selection (s : AppState) (c : Customer)
    (m : Option Int) (h : s.selectedCustomer = some c) :
    (handleFilterAmount s m).filteredTransactions
      = filterByAmount s.transactions m := by
  cases m <;> rfl

/-- Claim C7, witness: concrete state with customer A selected and
threshold 7. -/
theorem handleFilterAmount_ignores_selection_witness :
    sampleState.selectedCustomer = some ⟨1, "A"⟩
    ∧ (handleFilterAmount sampleState (some 7)).filteredTransactions
        = filterByAmount sampleState.transactions (some 7) :=
  ⟨rfl, handleFilterAmount_ignores_selection sampleState ⟨1, "A"⟩ (some 7) rfl⟩

/-- Claim C8 (confirmed): a failed or null fetch leaves the state exactly
as it was, and in particular, starting from the initial state, the
customers, transactions, and filtered-transactions collections all remain
empty. -/
theorem loadData_failure_empty_state :
    (∀ s : AppState, loadData s none = s)
    ∧ (loadData initState none).customers = []
    ∧ (loadData initState none).transactions = []
    ∧ (loadData initState none).filteredTransactions = [] :=
  ⟨fun _ => rfl, rfl, rfl, rfl⟩

/-- Claim C9 (confirmed): a transaction whose `customer_id` matches no
customer still flows through every operation: its table-row customer name
is `none` (rendered blank, no failure), and the all-customers aggregation
still counts its amount in the points total. -/
theorem unmatched_customer_tolerated (cs : List Customer)
    (ts : List Transaction) (t : Transaction)
    (h : ∀ c ∈ cs, c.id ≠ t.customer_id) :
    rowName cs t = none
    ∧ (aggregateByCustomer (t :: ts) cs).points.sum
        = t.amount + (aggregateByCustomer ts cs).points.sum := by
  constructor
  · have hfind : cs.find? (fun c => c.id == t.customer_id) = none :=
      List.find?_eq_none.mpr fun c hc hb => h c hc (eq_of_beq hb)
    simp [rowName, hfind]
  · rw [aggregateByCustomer_points_sum, aggregateByCustomer_points_sum,
      sumAmt_cons]

/-- Claim C9, witness: one customer with id 1, a transaction referencing
the nonexistent customer 2. -/
theorem unmatched_customer_tolerated_witness :
    (∀ c ∈ [Customer.mk 1 "A"], c.id ≠ (Transaction.mk 9 2 "2024-01-03" 7).customer_id)
    ∧ (rowName [Customer.mk 1 "A"] (Transaction.mk 9 2 "2024-01-03" 7) = none
        ∧ (aggregateByCustomer (Transaction.mk 9 2 "2024-01-03" 7 :: sampleTransactions)
              [Customer.mk 1 "A"]).points.sum
            = (Transaction.mk 9 2 "2024-01-03" 7).amount
                + (aggregateByCustomer sampleTransactions [Customer.mk 1 "A"]).points.sum) :=
  ⟨by decide,
    unmatched_customer_tolerated [Customer.mk 1 "A"] sampleTransactions
      (Transaction.mk 9 2 "2024-01-03" 7) (by decide)⟩

/-- Claim C10 (confirmed): neither handler touches the snapshot
collections; customer selection leaves the amount field alone and the
amount handler leaves the selection alone — each writes only its own
filter field and the derived filtered list. -/
theorem handlers_frame (s : AppState) (cid : Option Nat) (m : Option Int) :
    (handleFilterCustomerID s cid).customers = s.customers
    ∧ (handleFilterCustomerID s cid).transactions = s.transactions
    ∧ (handleFilterCustomerID s cid).filterAmount = s.filterAmount
    ∧ (handleFilterAmount s m).customers = s.customers
    ∧ (handleFilterAmount s m).transactions = s.transactions
    ∧ (handleFilterAmount s m).selectedCustomer = s.selectedCustomer := by
  cases cid <;> exact ⟨rfl, rfl, rfl, rfl, rfl, rfl⟩

end CustomerApp
